import Mathlib

/-!
Verification of the NocoDB workbook export/publish scripts
(`scripts/nocodb-save.py` and `scripts/nocodb-publish.py`).

The Python scripts are shallowly embedded: dynamic JSON/YAML values become a
small inductive type, Python dicts become association lists, exceptions become
`Except`, and the CPython semantics relevant to the claims (string truthiness,
`sorted` raising `TypeError` on `None` keys, `dict` duplicate-key handling,
zero-padded integer formatting) are modelled explicitly where the scripts rely
on them.
-/

/-- A dynamic JSON/YAML value as it appears in NocoDB record fields. -/
inductive JVal where
  | null
  | str (s : String)
  | int (n : Int)
  | boolean (b : Bool)
deriving DecidableEq, Repr

/-- The Python exceptions the embedded code can raise. -/
inductive PyErr where
  | keyError (k : String)
  | indexError
  | typeError
  | apiError (msg : String)
deriving DecidableEq, Repr

/-! ## Export side (`scripts/nocodb-save.py`) -/

/-- A remote NocoDB column as returned by the table-metadata endpoint, with the
fields `nocodb-save.py` reads.  JSON `null` is `none`; `metaOrder` is
`meta.defaultViewColOrder`, `none` when the key is absent or null. -/
structure RemoteColumn where
  title : Option String
  description : Option String
  uidt : Option String
  pv : Option Bool
  metaOrder : Option Int
deriving DecidableEq, Repr

/-- `SKIP_COLUMNS` from `nocodb-save.py` lines 191-201. -/
def SKIP_COLUMNS : List String :=
  ["Id", "CreatedAt", "nc_created_by", "UpdatedAt", "nc_updated_by",
   "nc_order", "LastModifiedBy", "Date", "Номер"]

/-- The membership test `column["title"] in SKIP_COLUMNS`.  A null title
(Python `None`) is never equal to any string in the list. -/
def inSkipColumns : Option String → Bool
  | some t => SKIP_COLUMNS.contains t
  | none => false

/-- The list comprehension at `nocodb-save.py` line 254:
`[column for column in columns if column["title"] not in SKIP_COLUMNS]`. -/
def filter_system_columns (columns : List RemoteColumn) : List RemoteColumn :=
  columns.filter fun c => !(inSkipColumns c.title)

/-- The call at `nocodb-save.py` line 255:
`sorted(filtered_columns, key=lambda x: x.get("meta", {}).get("defaultViewColOrder"))`.

CPython's `sorted` compares keys with `<`; in Python 3 `None` does not compare
with integers or with `None`, so the call raises `TypeError` exactly when some
key is `None` and the list has at least two elements (every element takes part
in at least one comparison).  Otherwise `sorted` is a stable sort by the key,
which `List.mergeSort` also is. -/
def order_columns_for_read (columns : List RemoteColumn) : Except PyErr (List RemoteColumn) :=
  if 2 ≤ columns.length ∧ columns.any (fun c => c.metaOrder.isNone) then
    .error .typeError
  else
    .ok (columns.mergeSort fun a b => decide (a.metaOrder.getD 0 ≤ b.metaOrder.getD 0))

/-- Python dict lookup `row[k]` on a string-keyed association list:
`KeyError` when the key is absent. -/
def dictGet (row : List (String × JVal)) (k : String) : Except PyErr JVal :=
  match row.find? (fun p => decide (p.1 = k)) with
  | some p => .ok p.2
  | none => .error (.keyError k)

/-- `build_workbook_row_tuple` from `nocodb-save.py` lines 171-188.

In the source the branch `if column_name not in row: value = ""` assigns a
value that is immediately overwritten by the unconditional
`value = row[column_name]` on the next line, so a field absent from the record
raises `KeyError`; the embedding keeps that behaviour.  A column whose title is
JSON null leads to `row[None]`, a `KeyError` on a string-keyed dict. -/
def build_workbook_row_tuple (row : List (String × JVal)) (columns : List RemoteColumn) :
    Except PyErr (JVal × List JVal) := do
  let rowId ← dictGet row "Id"
  let data ← columns.mapM fun c => do
    let v ← match c.title with
      | some t => dictGet row t
      | none => Except.error (PyErr.keyError "None")
    pure (if v = JVal.null then JVal.str "" else v)
  pure (rowId, data)

/-! ### Python `dict` built from a list of key/value pairs

`dict([...])` keeps at most one entry per key: a repeated key keeps the
position of its first occurrence and the value of its last occurrence. -/

/-- One `d[k] = v` step on a Python dict modelled as an association list. -/
def pyDictInsert {K V : Type} [DecidableEq K] (d : List (K × V)) (k : K) (v : V) :
    List (K × V) :=
  if d.any (fun p => decide (p.1 = k)) then
    d.map (fun p => if p.1 = k then (p.1, v) else p)
  else
    d ++ [(k, v)]

/-- `dict(pairs)` for a list of key/value pairs. -/
def pyDictOfPairs {K V : Type} [DecidableEq K] (ps : List (K × V)) : List (K × V) :=
  ps.foldl (fun d p => pyDictInsert d p.1 p.2) []

/-- Python dict lookup returning an `Option`. -/
def dictLookup {K V : Type} [DecidableEq K] (d : List (K × V)) (k : K) : Option V :=
  (d.find? fun p => decide (p.1 = k)).map Prod.snd

/-- The `rows` entry built at `nocodb-save.py` line 260:
`dict([build_workbook_row_tuple(row, ordered_columns) for row in table_data])`. -/
def build_workbook_rows (tableData : List (List (String × JVal)))
    (orderedColumns : List RemoteColumn) : Except PyErr (List (JVal × List JVal)) := do
  let pairs ← tableData.mapM (fun r => build_workbook_row_tuple r orderedColumns)
  pure (pyDictOfPairs pairs)

/-! ### Table filenames (`get_table_filename`, lines 265-272) -/

/-- Python `int()` applied to a (rational-valued) number: truncation toward
zero.  `Rat` values are normalized, so for `0 ≤ q` this is `num / den`. -/
def pyIntTrunc (q : ℚ) : Int :=
  if 0 ≤ q then Int.ofNat (q.num.toNat / q.den)
  else - Int.ofNat ((-q.num).toNat / q.den)

/-- Number of decimal digits, computed with explicit fuel so that it reduces in
the kernel (`decLenFuel n n` is correct because a number needs at most `n`
division steps). -/
def decLenFuel : Nat → Nat → Nat
  | 0, _ => 1
  | fuel + 1, n => if n < 10 then 1 else decLenFuel fuel (n / 10) + 1

/-- Number of decimal digits of `n`. -/
def decLen (n : Nat) : Nat := decLenFuel n n

/-- The character for a decimal digit. -/
def digitChar10 (d : Nat) : Char := Char.ofNat (48 + d)

/-- The `w`-character zero-padded decimal rendering of `n` (most significant
digit first); for `n < 10 ^ w` this is the decimal numeral left-padded with
zeros to width `w`. -/
def padDec : Nat → Nat → List Char
  | 0, _ => []
  | w + 1, n => digitChar10 (n / 10 ^ w) :: padDec w (n % 10 ^ w)

/-- Python `f"{n:04d}"`: decimal rendering zero-padded to a total width of 4
(the sign, when present, counts toward the width). -/
def pyFormat04d (n : Int) : String :=
  if n < 0 then "-" ++ String.mk (padDec (max 3 (decLen (-n).toNat)) (-n).toNat)
  else String.mk (padDec (max 4 (decLen n.toNat)) n.toNat)

/-- The table metadata fields used by `get_table_filename`. -/
structure TableMeta where
  id : String
  order : ℚ
deriving DecidableEq, Repr

/-- `get_table_filename` from `nocodb-save.py` lines 265-272:
`order = int(table_metadata['order'] * 10)` then
`f"{order:04d}.{table_metadata['id']}.yaml"`. -/
def get_table_filename (t : TableMeta) : String :=
  pyFormat04d (pyIntTrunc (t.order * 10)) ++ "." ++ t.id ++ ".yaml"

/-! ## Publish side (`scripts/nocodb-publish.py`) -/

/-- A workbook column as loaded from a table YAML file (a Python dict, so every
field access goes through `.get` and may be absent). -/
structure PubColumn where
  title : Option String
  uidt : Option String
  pv : Option Bool
deriving DecidableEq, Repr

/-- The synthesized identity column `{"title": "Id", "uidt": "ID"}`
(`nocodb-publish.py` lines 186-189); the dict has no `pv` key. -/
def idColumn : PubColumn := ⟨some "Id", some "ID", none⟩

/-- `set_pv_if_not_exists` from `nocodb-publish.py` lines 166-175.  The loop
returns the columns unchanged at the first column whose `pv` is truthy;
otherwise `columns[0]["pv"] = True` raises `IndexError` on an empty list. -/
def set_pv_if_not_exists (columns : List PubColumn) : Except PyErr (List PubColumn) :=
  if columns.any (fun c => c.pv = some true) then .ok columns
  else
    match columns with
    | [] => .error .indexError
    | c :: rest => .ok ({ c with pv := some true } :: rest)

/-- `add_id_column_if_not_exists` from `nocodb-publish.py` lines 178-191:
return the list unchanged at the first column titled `"Id"`, otherwise prepend
the synthesized identity column. -/
def add_id_column_if_not_exists (columns : List PubColumn) : List PubColumn :=
  if columns.any (fun c => c.title = some "Id") then columns
  else idColumn :: columns

/-- A remote NocoDB base as returned by the base-list endpoint, with the fields
`nocodb-publish.py` reads (`description` is `none` for JSON null). -/
structure RemoteBase where
  id : String
  description : Option String
deriving DecidableEq, Repr

/-- The base description used as the idempotency key:
`f"{workbook_path}:{owner_email}"`. -/
def baseKey (workbook_path owner_email : String) : String :=
  workbook_path ++ ":" ++ owner_email

/-- The created base title:
`f"{workbook_title} ({owner_name}, {owner_email})"`. -/
def baseTitle (workbook_title owner_name owner_email : String) : String :=
  workbook_title ++ " (" ++ owner_name ++ ", " ++ owner_email ++ ")"

/-- `check_base_exists` from `nocodb-publish.py` lines 251-259: the id of the
first base whose description equals the given one, else `None`. -/
def check_base_exists (bases : List RemoteBase) (desc : String) : Option String :=
  (bases.find? fun b => decide (b.description = some desc)).map RemoteBase.id

/-- Outcome of the base-resolution step of `publish_workbook`. -/
inductive BaseResolution where
  | reused (id : String)
  | created (title description : String)
deriving DecidableEq, Repr

/-- The base-resolution step of `publish_workbook` (`nocodb-publish.py` lines
288-295).  `if base_id:` is Python truthiness, so an empty-string id found by
`check_base_exists` falls through to creation; the created base gets title
`base_title[:50]` and the key as description. -/
def resolve_base (bases : List RemoteBase)
    (workbook_path owner_email workbook_title owner_name : String) : BaseResolution :=
  let t50 := (baseTitle workbook_title owner_name owner_email).take 50
  let desc := baseKey workbook_path owner_email
  match check_base_exists bases desc with
  | some id => if id.isEmpty then .created t50 desc else .reused id
  | none => .created t50 desc

/-- The HTTP response object returned by `nocodb_create_base` (which performs
no status check): its status code, and the `id` field of the parsed JSON body
(`none` when the body carries no `id`, as error bodies do). -/
structure CreateBaseResp where
  status : Nat
  jsonId : Option String
deriving DecidableEq, Repr

/-- The remote service as seen by `publish_workbook`: the current base list,
the response to a base-creation POST, and the outcome of the owner-grant call
(`nocodb_create_user` raises on any non-200 response). -/
structure PublishRemote where
  bases : List RemoteBase
  createBase : String → String → CreateBaseResp
  createUser : Option String → String → Except PyErr Unit

/-- Observable remote effects of one `publish_workbook` run. -/
inductive PubEvent where
  | basePosted (title description : String)
  | userGranted (baseId : Option String)
  | tablePublished (i : Nat)
  | tableFailed (i : Nat)
deriving DecidableEq, Repr

/-- Per-table events of the `publish_base` loop, given each table's outcome. -/
def tableEvents : Nat → List (Except PyErr Unit) → List PubEvent
  | _, [] => []
  | i, r :: rs =>
    (match r with
     | .ok _ => PubEvent.tablePublished i
     | .error _ => PubEvent.tableFailed i) :: tableEvents (i + 1) rs

/-- `publish_workbook` from `nocodb-publish.py` lines 283-303, with each
table's publication outcome abstracted as an `Except`.  The base-creation
response is used only through `base_response.json().get("id")`; the status is
never inspected.  The owner-grant call is not wrapped in `try`, so its error
propagates and ends the run before the table loop. -/
def publish_workbook_run (env : PublishRemote)
    (workbook_path owner_email owner_name workbook_title : String)
    (tableResults : List (Except PyErr Unit)) :
    List PubEvent × Except PyErr (Option String) :=
  let step :=
    match resolve_base env.bases workbook_path owner_email workbook_title owner_name with
    | .reused id => (([] : List PubEvent), some id)
    | .created t d => ([PubEvent.basePosted t d], (env.createBase t d).jsonId)
  match env.createUser step.2 owner_email with
  | .error e => (step.1, .error e)
  | .ok _ =>
    (step.1 ++ [PubEvent.userGranted step.2] ++ tableEvents 0 tableResults, .ok step.2)

/-! ## The per-table loops (export `main`, lines 314-323; `publish_base`,
lines 273-280)

Both loops run the per-table action inside `try/except`, log failures and
continue, so we embed them as one recursion returning the fully processed
tables and the failed ones, with the per-table body abstracted. -/

/-- The export main loop: `for table in bases: try: process_table(table)
except: log and continue`.  Returns (processed tables, failed tables). -/
def export_run {τ ε : Type} (f : τ → Except ε Unit) : List τ → List τ × List τ
  | [] => ([], [])
  | t :: ts =>
    let rest := export_run f ts
    match f t with
    | .ok _ => (t :: rest.1, rest.2)
    | .error _ => (rest.1, t :: rest.2)

/-- The `publish_base` table loop: `for table in tables: try:
publish_table_to_nocodb(...) except: log and continue`. -/
def publish_base_run {τ ε : Type} (f : τ → Except ε Unit) : List τ → List τ × List τ
  | [] => ([], [])
  | t :: ts =>
    let rest := publish_base_run f ts
    match f t with
    | .ok _ => (t :: rest.1, rest.2)
    | .error _ => (rest.1, t :: rest.2)

/-! ## Claim C1: `filter_system_columns` -/

/-- The four-column example from the spec, with titles
`Id, Name, CreatedAt, Number`. -/
def exampleColumns : List RemoteColumn :=
  [⟨some "Id", none, some "ID", none, some 1⟩,
   ⟨some "Name", none, some "SingleLineText", none, some 2⟩,
   ⟨some "CreatedAt", none, some "CreatedTime", none, some 3⟩,
   ⟨some "Number", none, some "SingleLineText", none, some 4⟩]

/-- C1, counterexample: on the titles `[Id, Name, CreatedAt, Number]` the
filter does not return `[Id, Name, Number]`, because `"Id"` itself is in the
`SKIP_COLUMNS` deny-list. -/
theorem filter_system_columns_cex :
    (filter_system_columns exampleColumns).map RemoteColumn.title ≠
      [some "Id", some "Name", some "Number"] ∧
    "Id" ∈ SKIP_COLUMNS := by decide

/-- C1 (amended): `filter_system_columns` removes exactly the columns whose
title is in the deny-list and keeps the survivors in order (the result is a
sublist); on the example titles `[Id, Name, CreatedAt, Number]` the output is
`[Name, Number]`, since `"Id"` is in the deny-list. -/
theorem filter_system_columns_amended :
    (∀ cols : List RemoteColumn,
      List.Sublist (filter_system_columns cols) cols ∧
      ∀ c, c ∈ filter_system_columns cols ↔ c ∈ cols ∧ inSkipColumns c.title = false) ∧
    (filter_system_columns exampleColumns).map RemoteColumn.title =
      [some "Name", some "Number"] := by
  refine ⟨fun cols => ⟨List.filter_sublist cols, fun c => ?_⟩, by decide⟩
  simp [filter_system_columns, List.mem_filter]

/-! ## Claim C2: `add_id_column_if_not_exists` -/

/-- A column list whose `"Id"` column is not at index 0 and has a non-`"ID"`
type-tag. -/
def cexColumnsC2 : List PubColumn :=
  [⟨some "X", some "SingleLineText", none⟩, ⟨some "Id", some "SingleLineText", none⟩]

/-- C2, counterexample: with an `"Id"` column already present at index 1, the
function returns the list unchanged, so column 0 is titled `"X"`, not `"Id"`. -/
theorem add_id_column_cex :
    (add_id_column_if_not_exists cexColumnsC2).head?.map PubColumn.title =
      some (some "X") ∧ some "X" ≠ some "Id" := by decide

/-- C2 (amended): the function is idempotent; when no column is titled `"Id"`
the synthesized identity column is prepended (so column 0 is then
`{title:"Id", uidt:"ID"}`); when some column is titled `"Id"` — at any index
and with any type-tag — the list is returned unchanged, so column 0 need not
be titled `"Id"`. -/
theorem add_id_column_amended (columns : List PubColumn) :
    add_id_column_if_not_exists (add_id_column_if_not_exists columns) =
      add_id_column_if_not_exists columns ∧
    ((∀ c ∈ columns, c.title ≠ some "Id") →
      add_id_column_if_not_exists columns = idColumn :: columns) ∧
    ((∃ c ∈ columns, c.title = some "Id") → add_id_column_if_not_exists columns = columns) := by
  by_cases h : (columns.any fun c => decide (c.title = some "Id")) = true
  · refine ⟨by simp [add_id_column_if_not_exists, h], fun hall => ?_, fun _ => by
      simp [add_id_column_if_not_exists, h]⟩
    exfalso
    rcases List.any_eq_true.mp h with ⟨c, hc, hid⟩
    exact hall c hc (by simpa using hid)
  · have h' : (columns.any fun c => decide (c.title = some "Id")) = false := by
      simpa using h
    refine ⟨?_, fun _ => by simp [add_id_column_if_not_exists, h'], fun hex => ?_⟩
    · simp [add_id_column_if_not_exists, h', idColumn]
    · exfalso
      rcases hex with ⟨c, hc, hid⟩
      have : (columns.any fun c => decide (c.title = some "Id")) = true :=
        List.any_eq_true.mpr ⟨c, hc, by simp [hid]⟩
      simp [this] at h'

/-- C2 witness: the amended theorem applied to the empty column list. -/
theorem add_id_column_amended_witness :
    add_id_column_if_not_exists (add_id_column_if_not_exists []) =
      add_id_column_if_not_exists [] ∧
    add_id_column_if_not_exists [] = idColumn :: [] :=
  ⟨(add_id_column_amended []).1, (add_id_column_amended []).2.1 (by simp)⟩

/-! ## Claim C3: `build_workbook_row_tuple` -/

/-- C3: on a record that lacks the `Name` field, the function raises
`KeyError` instead of using the empty string: the source's
`if column_name not in row: value = ""` is immediately overwritten by the
unconditional `value = row[column_name]`. -/
theorem build_workbook_row_tuple_keyerror :
    build_workbook_row_tuple [("Id", JVal.int 1)]
      [⟨some "Name", none, some "SingleLineText", none, some 1⟩] =
      .error (.keyError "Name") := rfl

/-! ## Claim C8: `set_pv_if_not_exists` -/

/-- C8, counterexample: on the empty column list the function does not
succeed — `columns[0]["pv"] = True` raises `IndexError`. -/
theorem set_pv_cex : set_pv_if_not_exists [] = .error PyErr.indexError := rfl

/-- C8 (amended): on every nonempty column list the function succeeds,
returning the list unchanged when some column has `pv = true` and otherwise
setting the first column's `pv`; and it is idempotent there.  On the empty
list it raises `IndexError`. -/
theorem set_pv_amended (c₀ : PubColumn) (rest : List PubColumn) :
    (set_pv_if_not_exists (c₀ :: rest)).isOk = true ∧
    ((∃ c ∈ c₀ :: rest, c.pv = some true) →
      set_pv_if_not_exists (c₀ :: rest) = .ok (c₀ :: rest)) ∧
    ((∀ c ∈ c₀ :: rest, c.pv ≠ some true) →
      set_pv_if_not_exists (c₀ :: rest) = .ok ({ c₀ with pv := some true } :: rest)) ∧
    (set_pv_if_not_exists (c₀ :: rest)).bind set_pv_if_not_exists =
      set_pv_if_not_exists (c₀ :: rest) := by
  by_cases hany : ((c₀ :: rest).any fun c => decide (c.pv = some true)) = true
  · have hok : set_pv_if_not_exists (c₀ :: rest) = .ok (c₀ :: rest) := by
      simp [set_pv_if_not_exists, hany]
    refine ⟨by rw [hok]; rfl, fun _ => hok, fun hall => ?_, by
      simp [hok, Except.bind, hok]⟩
    exfalso
    rcases List.any_eq_true.mp hany with ⟨c, hc, hpv⟩
    exact hall c hc (of_decide_eq_true hpv)
  · have hany' : ((c₀ :: rest).any fun c => decide (c.pv = some true)) = false := by
      simpa using hany
    have hok : set_pv_if_not_exists (c₀ :: rest) =
        .ok ({ c₀ with pv := some true } :: rest) := by
      simp [set_pv_if_not_exists, hany']
    have hok2 : set_pv_if_not_exists ({ c₀ with pv := some true } :: rest) =
        .ok ({ c₀ with pv := some true } :: rest) := by
      simp [set_pv_if_not_exists]
    refine ⟨by rw [hok]; rfl, fun hex => ?_, fun _ => hok, by
      simp [hok, Except.bind, hok2]⟩
    exfalso
    rcases hex with ⟨c, hc, hpv⟩
    have : ((c₀ :: rest).any fun c => decide (c.pv = some true)) = true :=
      List.any_eq_true.mpr ⟨c, hc, by simp [hpv]⟩
    simp [this] at hany'

/-- C8 witness: the amended theorem applied to a one-column list with no
primary-value flag. -/
theorem set_pv_amended_witness :
    (set_pv_if_not_exists [⟨some "A", some "SingleLineText", none⟩]).isOk = true ∧
    set_pv_if_not_exists [⟨some "A", some "SingleLineText", none⟩] =
      .ok [⟨some "A", some "SingleLineText", some true⟩] ∧
    (set_pv_if_not_exists [⟨some "A", some "SingleLineText", none⟩]).bind
      set_pv_if_not_exists =
      set_pv_if_not_exists [⟨some "A", some "SingleLineText", none⟩] := by
  have h := set_pv_amended ⟨some "A", some "SingleLineText", none⟩ []
  exact ⟨h.1, h.2.2.1 (by decide), h.2.2.2⟩

/-! ## Claim C7: per-table failure isolation -/

/-- The export main loop processes every table, splitting the input into the
successfully processed ones and the failed ones, each in input order. -/
theorem export_run_eq {τ ε : Type} (f : τ → Except ε Unit) :
    ∀ ts : List τ, export_run f ts =
      (ts.filter fun t => (f t).isOk, ts.filter fun t => !(f t).isOk)
  | [] => rfl
  | t :: ts => by
    simp only [export_run, export_run_eq f ts, List.filter_cons]
    cases h : f t <;> simp [h, Except.isOk, Except.toBool]

/-- Same characterization for the `publish_base` loop. -/
theorem publish_base_run_eq {τ ε : Type} (f : τ → Except ε Unit) :
    ∀ ts : List τ, publish_base_run f ts =
      (ts.filter fun t => (f t).isOk, ts.filter fun t => !(f t).isOk)
  | [] => rfl
  | t :: ts => by
    simp only [publish_base_run, publish_base_run_eq f ts, List.filter_cons]
    cases h : f t <;> simp [h, Except.isOk, Except.toBool]

/-- C7: in both the export main loop and the `publish_base` loop, the
processed tables are exactly those whose per-table action succeeds and the
failure set exactly those whose action raises, both in input order; hence when
only `t₀` raises, every other table is still fully processed and the failure
set contains only `t₀`. -/
theorem per_table_isolation {τ₁ ε₁ τ₂ ε₂ : Type} (f : τ₁ → Except ε₁ Unit)
    (ts : List τ₁) (t₀ : τ₁) (g : τ₂ → Except ε₂ Unit) (us : List τ₂) :
    export_run f ts = (ts.filter fun t => (f t).isOk, ts.filter fun t => !(f t).isOk) ∧
    publish_base_run g us =
      (us.filter fun u => (g u).isOk, us.filter fun u => !(g u).isOk) ∧
    ((∀ t ∈ ts, t ≠ t₀ → (f t).isOk = true) →
      (∀ t ∈ ts, t ≠ t₀ → t ∈ (export_run f ts).1) ∧
      ∀ t ∈ (export_run f ts).2, t = t₀) := by
  refine ⟨export_run_eq f ts, publish_base_run_eq g us, fun hok => ⟨?_, ?_⟩⟩
  · intro t ht hne
    rw [export_run_eq f ts]
    exact List.mem_filter.mpr ⟨ht, hok t ht hne⟩
  · intro t ht
    rw [export_run_eq f ts] at ht
    rcases List.mem_filter.mp ht with ⟨hmem, hfail⟩
    by_contra hne
    rw [hok t hmem hne] at hfail
    simp at hfail

/-- C7 witness: three tables where only the middle one raises. -/
theorem per_table_isolation_witness :
    export_run (fun n : Nat => if n = 2 then .error "boom" else .ok ()) [1, 2, 3] =
      ([1, 3], [2]) ∧
    publish_base_run (fun n : Nat => if n = 2 then .error "boom" else .ok ()) [1, 2, 3] =
      ([1, 3], [2]) ∧
    1 ∈ (export_run (fun n : Nat => if n = 2 then .error "boom" else .ok ()) [1, 2, 3]).1 := by
  have h := per_table_isolation (fun n : Nat => if n = 2 then .error "boom" else .ok ())
    [1, 2, 3] 2 (fun n : Nat => if n = 2 then .error "boom" else .ok ()) [1, 2, 3]
  refine ⟨by rw [h.1]; rfl, by rw [h.2.1]; rfl, ?_⟩
  exact (h.2.2 (by decide)).1 1 (by decide) (by decide)

/-! ## Claim C5: publish base resolution -/

/-- When no base carries the key as description, resolution creates a base
with the truncated title and the key as description. -/
theorem resolve_base_eq_created (bases : List RemoteBase) (path email wt oname : String)
    (h : ∀ b ∈ bases, b.description ≠ some (baseKey path email)) :
    resolve_base bases path email wt oname =
      .created ((baseTitle wt oname email).take 50) (baseKey path email) := by
  have hfind : (bases.find? fun b => decide (b.description = some (baseKey path email)))
      = none :=
    List.find?_eq_none.mpr fun b hb => by simpa using h b hb
  simp [resolve_base, check_base_exists, hfind]

/-- C5 (amended): if some base's description equals the key and the first such
base has a non-empty id, resolution reuses that id and creates nothing;
otherwise a base titled `base_title[:50]` with the key as description is
created, and a second run whose base list now contains that created base (with
a non-empty remote-assigned id) reuses it.  (When the first matching base's id
is the empty string — Python-falsy — the code falls through to creation, which
is what the counterexample exhibits.) -/
theorem resolve_base_amended (bases : List RemoteBase) (path email wt oname : String) :
    ((∀ b ∈ bases, b.description ≠ some (baseKey path email)) →
      resolve_base bases path email wt oname =
        .created ((baseTitle wt oname email).take 50) (baseKey path email) ∧
      (∀ newId : String, newId.isEmpty = false →
        resolve_base (bases ++ [⟨newId, some (baseKey path email)⟩]) path email wt oname =
          .reused newId)) ∧
    (∀ b : RemoteBase,
      (bases.find? fun x => decide (x.description = some (baseKey path email))) = some b →
      b.id.isEmpty = false →
      resolve_base bases path email wt oname = .reused b.id ∧
      b ∈ bases ∧ b.description = some (baseKey path email)) := by
  constructor
  · intro h
    refine ⟨resolve_base_eq_created bases path email wt oname h, fun newId hne => ?_⟩
    have hfind : (bases.find? fun b => decide (b.description = some (baseKey path email)))
        = none :=
      List.find?_eq_none.mpr fun b hb => by simpa using h b hb
    simp [resolve_base, check_base_exists, List.find?_append, hfind, hne]
  · intro b hfind hne
    refine ⟨by simp [resolve_base, check_base_exists, hfind, hne],
      List.mem_of_find?_eq_some hfind, by simpa using List.find?_some hfind⟩

/-- C5 witness: an empty base list leads to creation; a second run over the
created base reuses its id. -/
theorem resolve_base_amended_witness :
    resolve_base [] "wb" "o@x" "T" "N" =
      .created ((baseTitle "T" "N" "o@x").take 50) (baseKey "wb" "o@x") ∧
    resolve_base [⟨"b1", some (baseKey "wb" "o@x")⟩] "wb" "o@x" "T" "N" =
      .reused "b1" := by
  have h := (resolve_base_amended [] "wb" "o@x" "T" "N").1 (by simp)
  exact ⟨h.1, by simpa using h.2 "b1" rfl⟩

/-- C5, counterexample: a base whose description equals the key but whose id
is the empty string is Python-falsy, so `publish_workbook` creates a new base
instead of reusing it. -/
theorem resolve_base_cex :
    (RemoteBase.mk "" (some (baseKey "wb" "o@x"))) ∈
      [RemoteBase.mk "" (some (baseKey "wb" "o@x"))] ∧
    (RemoteBase.mk "" (some (baseKey "wb" "o@x"))).description =
      some (baseKey "wb" "o@x") ∧
    resolve_base [RemoteBase.mk "" (some (baseKey "wb" "o@x"))] "wb" "o@x" "T" "N" =
      .created ((baseTitle "T" "N" "o@x").take 50) (baseKey "wb" "o@x") := by
  exact ⟨by simp, rfl, rfl⟩

/-! ## Claim C6: failed base creation during publish -/

/-- C6, counterexample: `nocodb_create_base` performs no status check, so with
a remote whose creation endpoint answers 500 (and whose other endpoints
accept), `publish_workbook` completes without error and still publishes the
tables — the run does not abort. -/
theorem publish_create_base_cex :
    ((PublishRemote.mk [] (fun _ _ => ⟨500, none⟩) (fun _ _ => .ok ())).createBase
      ((baseTitle "T" "N" "o@x").take 50) (baseKey "wb" "o@x")).status = 500 ∧
    publish_workbook_run (PublishRemote.mk [] (fun _ _ => ⟨500, none⟩) (fun _ _ => .ok ()))
      "wb" "o@x" "N" "T" [.ok ()] =
      ([PubEvent.basePosted ((baseTitle "T" "N" "o@x").take 50) (baseKey "wb" "o@x"),
        PubEvent.userGranted none, PubEvent.tablePublished 0], .ok none) := by
  exact ⟨rfl, rfl⟩

/-- C6 (amended): the creation call itself raises nothing; after a failed
creation the run proceeds with `base_id = None` (the error body has no `id`),
and it is the subsequent owner-grant call — which does raise on a non-2xx
response — whose error propagates and ends the run before any table is
published. -/
theorem publish_create_base_amended (env : PublishRemote)
    (path email oname wbTitle : String) (tableResults : List (Except PyErr Unit)) (e : PyErr)
    (hnb : ∀ b ∈ env.bases, b.description ≠ some (baseKey path email))
    (hid : (env.createBase ((baseTitle wbTitle oname email).take 50)
      (baseKey path email)).jsonId = none)
    (hu : env.createUser none email = .error e) :
    publish_workbook_run env path email oname wbTitle tableResults =
      ([PubEvent.basePosted ((baseTitle wbTitle oname email).take 50) (baseKey path email)],
        .error e) ∧
    ∀ i, PubEvent.tablePublished i ∉
      (publish_workbook_run env path email oname wbTitle tableResults).1 := by
  have hres := resolve_base_eq_created env.bases path email wbTitle oname hnb
  have hrun : publish_workbook_run env path email oname wbTitle tableResults =
      ([PubEvent.basePosted ((baseTitle wbTitle oname email).take 50) (baseKey path email)],
        .error e) := by
    simp [publish_workbook_run, hres, hid, hu]
  refine ⟨hrun, fun i => ?_⟩
  rw [hrun]
  simp

/-- C6 witness: a remote that rejects base creation (body without `id`) and
rejects the owner grant on the null base id. -/
theorem publish_create_base_amended_witness :
    publish_workbook_run
      (PublishRemote.mk [] (fun _ _ => ⟨400, none⟩) (fun _ _ => .error (.apiError "404")))
      "wb" "o@x" "N" "T" [.ok ()] =
      ([PubEvent.basePosted ((baseTitle "T" "N" "o@x").take 50) (baseKey "wb" "o@x")],
        .error (.apiError "404")) ∧
    PubEvent.tablePublished 0 ∉
      (publish_workbook_run
        (PublishRemote.mk [] (fun _ _ => ⟨400, none⟩) (fun _ _ => .error (.apiError "404")))
        "wb" "o@x" "N" "T" [.ok ()]).1 := by
  have h := publish_create_base_amended
    (PublishRemote.mk [] (fun _ _ => ⟨400, none⟩) (fun _ _ => .error (.apiError "404")))
    "wb" "o@x" "N" "T" [.ok ()] (.apiError "404") (by simp) rfl rfl
  exact ⟨h.1, h.2 0⟩

/-! ## Claim C4: `order_columns_for_read` -/

/-- The spec's example input: titles `A, B, C` with order values
`None, 1, None`. -/
def cexColumnsC4 : List RemoteColumn :=
  [⟨some "A", none, some "SingleLineText", none, none⟩,
   ⟨some "B", none, some "SingleLineText", none, some 1⟩,
   ⟨some "C", none, some "SingleLineText", none, none⟩]

/-- C4, counterexample: on the spec's example (two columns with a missing
order value) the sort does not succeed — Python 3 raises `TypeError` when
comparing `None` with an integer — so the output is not `[B, A, C]`. -/
theorem order_columns_cex :
    order_columns_for_read cexColumnsC4 = .error PyErr.typeError := rfl

/-- C4 (amended): when every column carries an order value the sort succeeds,
is ordered by `meta.defaultViewColOrder`, permutes the input, and is stable
(columns with equal order value keep their original relative order); when a
value is missing and the list has at least two columns it raises `TypeError`
instead of sorting missing values lowest. -/
theorem order_columns_amended (cols : List RemoteColumn)
    (h : ∀ c ∈ cols, c.metaOrder.isSome = true) :
    ∃ res, order_columns_for_read cols = .ok res ∧
      List.Pairwise (fun a b => a.metaOrder.getD 0 ≤ b.metaOrder.getD 0) res ∧
      (∀ v : Option Int, res.filter (fun c => decide (c.metaOrder = v)) =
        cols.filter (fun c => decide (c.metaOrder = v))) ∧
      res.Perm cols := by
  have hno : ¬(2 ≤ cols.length ∧ (cols.any fun c => c.metaOrder.isNone) = true) := by
    rintro ⟨-, hany⟩
    rcases List.any_eq_true.mp hany with ⟨c, hc, hnone⟩
    have hsome := h c hc
    rw [Option.isNone_iff_eq_none] at hnone
    rw [hnone] at hsome
    simp at hsome
  have htrans : ∀ a b c : RemoteColumn,
      decide (a.metaOrder.getD 0 ≤ b.metaOrder.getD 0) = true →
      decide (b.metaOrder.getD 0 ≤ c.metaOrder.getD 0) = true →
      decide (a.metaOrder.getD 0 ≤ c.metaOrder.getD 0) = true := by
    intro a b c hab hbc
    simp only [decide_eq_true_eq] at hab hbc ⊢
    exact le_trans hab hbc
  have htotal : ∀ a b : RemoteColumn,
      (decide (a.metaOrder.getD 0 ≤ b.metaOrder.getD 0) ||
        decide (b.metaOrder.getD 0 ≤ a.metaOrder.getD 0)) = true := by
    intro a b
    simp only [Bool.or_eq_true, decide_eq_true_eq]
    exact le_total _ _
  refine ⟨cols.mergeSort fun a b => decide (a.metaOrder.getD 0 ≤ b.metaOrder.getD 0),
    by unfold order_columns_for_read; rw [if_neg hno], ?_, ?_, List.mergeSort_perm cols _⟩
  · exact (List.sorted_mergeSort htrans htotal cols).imp fun hab => of_decide_eq_true hab
  · intro v
    have hsubl : List.Sublist
        (cols.filter fun c => decide (c.metaOrder = v)) cols := List.filter_sublist _
    have hpair : (cols.filter fun c => decide (c.metaOrder = v)).Pairwise
        (fun a b => decide (a.metaOrder.getD 0 ≤ b.metaOrder.getD 0) = true) := by
      apply List.pairwise_of_forall_mem_list
      intro a ha b hb
      have ha' : a.metaOrder = v := of_decide_eq_true (List.mem_filter.mp ha).2
      have hb' : b.metaOrder = v := of_decide_eq_true (List.mem_filter.mp hb).2
      simp [ha', hb']
    have h1 : List.Sublist (cols.filter fun c => decide (c.metaOrder = v))
        (cols.mergeSort fun a b => decide (a.metaOrder.getD 0 ≤ b.metaOrder.getD 0)) :=
      List.sublist_mergeSort htrans htotal hpair hsubl
    have h2 : List.Sublist (cols.filter fun c => decide (c.metaOrder = v))
        ((cols.mergeSort fun a b =>
          decide (a.metaOrder.getD 0 ≤ b.metaOrder.getD 0)).filter
          fun c => decide (c.metaOrder = v)) := by
      have h3 := h1.filter fun c => decide (c.metaOrder = v)
      rwa [List.filter_eq_self.mpr fun a ha => (List.mem_filter.mp ha).2] at h3
    have hperm : ((cols.mergeSort fun a b =>
        decide (a.metaOrder.getD 0 ≤ b.metaOrder.getD 0)).filter
        fun c => decide (c.metaOrder = v)).Perm
        (cols.filter fun c => decide (c.metaOrder = v)) :=
      (List.mergeSort_perm cols _).filter _
    exact (h2.eq_of_length hperm.length_eq.symm).symm

/-- C4 witness: a two-column list with order values present, sorted stably. -/
theorem order_columns_amended_witness :
    (∀ c ∈ [(⟨some "B", none, none, none, some 2⟩ : RemoteColumn),
        ⟨some "A", none, none, none, some 1⟩], c.metaOrder.isSome = true) ∧
    ∃ res, order_columns_for_read
        [⟨some "B", none, none, none, some 2⟩, ⟨some "A", none, none, none, some 1⟩] =
        .ok res ∧
      List.Pairwise (fun a b => a.metaOrder.getD 0 ≤ b.metaOrder.getD 0) res ∧
      (∀ v : Option Int, res.filter (fun c => decide (c.metaOrder = v)) =
        [(⟨some "B", none, none, none, some 2⟩ : RemoteColumn),
          ⟨some "A", none, none, none, some 1⟩].filter
          (fun c => decide (c.metaOrder = v))) ∧
      res.Perm [⟨some "B", none, none, none, some 2⟩, ⟨some "A", none, none, none, some 1⟩] :=
  ⟨by decide, order_columns_amended _ (by decide)⟩

/-! ## Claim C10: duplicate identities in the rows mapping -/

/-- Replacing the value at key `k` leaves the first `k`-entry in place, so a
lookup of `k` afterwards yields the new value. -/
theorem find?_map_update_self {K V : Type} [DecidableEq K] :
    ∀ (d : List (K × V)) (k : K) (v : V), (d.any fun p => decide (p.1 = k)) = true →
      ((d.map fun p => if p.1 = k then (p.1, v) else p).find?
        (fun p => decide (p.1 = k))).map Prod.snd = some v
  | [], k, v, hc => by simp at hc
  | p :: d, k, v, hc => by
    by_cases hp : p.1 = k
    · simp [hp]
    · have hc' : (d.any fun p => decide (p.1 = k)) = true := by
        simp only [List.any_cons, Bool.or_eq_true] at hc
        rcases hc with h1 | h2
        · exact absurd (of_decide_eq_true h1) hp
        · exact h2
      simpa [hp] using find?_map_update_self d k v hc'

/-- `find?` over a cons whose head satisfies the predicate. -/
theorem find?_cons_true {α : Type} (p : α → Bool) (a : α) (l : List α) (h : p a = true) :
    (a :: l).find? p = some a :=
  List.find?_cons_of_pos l h

/-- `find?` over a cons whose head fails the predicate. -/
theorem find?_cons_false {α : Type} (p : α → Bool) (a : α) (l : List α) (h : p a = false) :
    (a :: l).find? p = l.find? p :=
  List.find?_cons_of_neg l (by simp [h])

/-- Replacing the value at key `k` does not change lookups of other keys. -/
theorem find?_map_update_ne {K V : Type} [DecidableEq K] :
    ∀ (d : List (K × V)) (k k' : K) (v : V), k' ≠ k →
      (d.map fun p => if p.1 = k then (p.1, v) else p).find? (fun p => decide (p.1 = k')) =
        d.find? (fun p => decide (p.1 = k'))
  | [], _, _, _, _ => rfl
  | p :: d, k, k', v, hne => by
    rw [List.map_cons]
    by_cases hp : p.1 = k
    · rw [if_pos hp]
      rw [find?_cons_false (fun q => decide (q.1 = k')) (p.1, v) _ (by
          simp only [decide_eq_false_iff_not]
          rw [hp]
          exact fun h => hne h.symm),
        find?_cons_false (fun q => decide (q.1 = k')) p d (by
          simp only [decide_eq_false_iff_not]
          rw [hp]
          exact fun h => hne h.symm),
        find?_map_update_ne d k k' v hne]
    · rw [if_neg hp]
      by_cases hq : p.1 = k'
      · rw [find?_cons_true (fun q => decide (q.1 = k')) p _ (by simp [hq]),
          find?_cons_true (fun q => decide (q.1 = k')) p d (by simp [hq])]
      · rw [find?_cons_false (fun q => decide (q.1 = k')) p _ (by simp [hq]),
          find?_cons_false (fun q => decide (q.1 = k')) p d (by simp [hq]),
          find?_map_update_ne d k k' v hne]

/-- After `d[k] = v`, looking up `k` yields `v`. -/
theorem dictLookup_pyDictInsert_self {K V : Type} [DecidableEq K]
    (d : List (K × V)) (k : K) (v : V) :
    dictLookup (pyDictInsert d k v) k = some v := by
  unfold pyDictInsert dictLookup
  by_cases hc : (d.any fun p => decide (p.1 = k)) = true
  · rw [if_pos hc]
    exact find?_map_update_self d k v hc
  · rw [if_neg hc]
    have hfind : d.find? (fun p => decide (p.1 = k)) = none :=
      List.find?_eq_none.mpr fun x hx hpx => hc (List.any_eq_true.mpr ⟨x, hx, hpx⟩)
    simp [List.find?_append, hfind]

/-- After `d[k] = v`, looking up a different key is unchanged. -/
theorem dictLookup_pyDictInsert_ne {K V : Type} [DecidableEq K]
    (d : List (K × V)) (k k' : K) (v : V) (hne : k' ≠ k) :
    dictLookup (pyDictInsert d k v) k' = dictLookup d k' := by
  unfold pyDictInsert dictLookup
  by_cases hc : (d.any fun p => decide (p.1 = k)) = true
  · rw [if_pos hc, find?_map_update_ne d k k' v hne]
  · rw [if_neg hc]
    have hlast : ([(k, v)].find? fun p => decide (p.1 = k')) = none := by
      simp
      exact fun h => hne h.symm
    simp [List.find?_append, hlast]

/-- The keys of `pyDictInsert`: unchanged when the key is present, appended
otherwise. -/
theorem keys_pyDictInsert {K V : Type} [DecidableEq K] (d : List (K × V)) (k : K) (v : V) :
    (pyDictInsert d k v).map Prod.fst =
      if (d.any fun p => decide (p.1 = k)) = true then d.map Prod.fst
      else d.map Prod.fst ++ [k] := by
  unfold pyDictInsert
  by_cases hc : (d.any fun p => decide (p.1 = k)) = true
  · rw [if_pos hc, if_pos hc, List.map_map]
    apply List.map_congr_left
    intro p _
    by_cases hp : p.1 = k <;> simp [hp]
  · rw [if_neg hc, if_neg hc]
    simp

/-- `pyDictOfPairs` over a snoc. -/
theorem pyDictOfPairs_concat {K V : Type} [DecidableEq K] (ps : List (K × V)) (q : K × V) :
    pyDictOfPairs (ps ++ [q]) = pyDictInsert (pyDictOfPairs ps) q.1 q.2 := by
  unfold pyDictOfPairs
  rw [List.foldl_append]
  rfl

/-- The dict built from `ps` has exactly the keys occurring in `ps`. -/
theorem mem_keys_pyDictOfPairs {K V : Type} [DecidableEq K] (ps : List (K × V)) :
    ∀ k : K, k ∈ (pyDictOfPairs ps).map Prod.fst ↔ k ∈ ps.map Prod.fst := by
  induction ps using List.reverseRecOn with
  | nil => intro k; simp [pyDictOfPairs]
  | append_singleton ps q ih =>
    intro k
    rw [pyDictOfPairs_concat, keys_pyDictInsert]
    by_cases hc : ((pyDictOfPairs ps).any fun p => decide (p.1 = q.1)) = true
    · rw [if_pos hc]
      have hq : q.1 ∈ ps.map Prod.fst := by
        rcases List.any_eq_true.mp hc with ⟨p, hp, hpk⟩
        exact (ih q.1).mp (List.mem_map.mpr ⟨p, hp, of_decide_eq_true hpk⟩)
      simp only [List.map_append, List.mem_append, List.map_cons, List.map_nil,
        List.mem_singleton]
      constructor
      · intro hk
        exact Or.inl ((ih k).mp hk)
      · rintro (hk | hk2)
        · exact (ih k).mpr hk
        · rw [hk2]
          exact (ih q.1).mpr hq
    · rw [if_neg hc]
      simp [List.mem_append, ih k]

/-- The dict built from `ps` has no duplicate keys. -/
theorem nodup_keys_pyDictOfPairs {K V : Type} [DecidableEq K] (ps : List (K × V)) :
    ((pyDictOfPairs ps).map Prod.fst).Nodup := by
  induction ps using List.reverseRecOn with
  | nil => simp [pyDictOfPairs]
  | append_singleton ps q ih =>
    rw [pyDictOfPairs_concat, keys_pyDictInsert]
    by_cases hc : ((pyDictOfPairs ps).any fun p => decide (p.1 = q.1)) = true
    · rw [if_pos hc]
      exact ih
    · rw [if_neg hc]
      have hq : q.1 ∉ (pyDictOfPairs ps).map Prod.fst := by
        intro hmem
        rcases List.mem_map.mp hmem with ⟨p, hp, hfst⟩
        exact hc (List.any_eq_true.mpr ⟨p, hp, decide_eq_true hfst⟩)
      simp [List.nodup_append, ih, hq]

/-- The size of the dict equals the number of distinct keys of the input. -/
theorem length_pyDictOfPairs {K V : Type} [DecidableEq K] (ps : List (K × V)) :
    (pyDictOfPairs ps).length = (ps.map Prod.fst).toFinset.card := by
  have h1 : (pyDictOfPairs ps).length = ((pyDictOfPairs ps).map Prod.fst).length := by
    simp
  rw [h1, ← List.toFinset_card_of_nodup (nodup_keys_pyDictOfPairs ps)]
  congr 1
  apply Finset.ext
  intro x
  rw [List.mem_toFinset, List.mem_toFinset]
  exact mem_keys_pyDictOfPairs ps x

/-- A lookup in the dict yields the value of the last pair with that key. -/
theorem lookup_pyDictOfPairs {K V : Type} [DecidableEq K] (ps : List (K × V)) (k : K) :
    dictLookup (pyDictOfPairs ps) k =
      ((ps.filter fun p => decide (p.1 = k)).getLast?).map Prod.snd := by
  induction ps using List.reverseRecOn with
  | nil => rfl
  | append_singleton ps q ih =>
    rw [pyDictOfPairs_concat]
    by_cases hq : k = q.1
    · rw [hq, dictLookup_pyDictInsert_self]
      have hfil : (ps ++ [q]).filter (fun p => decide (p.1 = q.1)) =
          ps.filter (fun p => decide (p.1 = q.1)) ++ [q] := by
        rw [List.filter_append]
        simp
      rw [hfil, List.getLast?_concat]
      rfl
    · rw [dictLookup_pyDictInsert_ne _ _ _ _ hq]
      have hfil : (ps ++ [q]).filter (fun p => decide (p.1 = k)) =
          ps.filter (fun p => decide (p.1 = k)) := by
        rw [List.filter_append]
        have : [q].filter (fun p => decide (p.1 = k)) = [] := by
          simp
          exact fun h => hq h.symm
        rw [this, List.append_nil]
      rw [hfil]
      exact ih

/-- C10: the rows mapping of `build_workbook` keeps at most one entry per
identity value: its size is the number of distinct `"Id"` values, and a lookup
of an id yields the values of the last record (in fetch order) carrying it. -/
theorem build_workbook_rows_dedup (tableData : List (List (String × JVal)))
    (cols : List RemoteColumn) (pairs : List (JVal × List JVal))
    (h : tableData.mapM (fun r => build_workbook_row_tuple r cols) = .ok pairs) :
    build_workbook_rows tableData cols = .ok (pyDictOfPairs pairs) ∧
    (pyDictOfPairs pairs).length = (pairs.map Prod.fst).toFinset.card ∧
    ∀ rid : JVal, dictLookup (pyDictOfPairs pairs) rid =
      ((pairs.filter fun p => decide (p.1 = rid)).getLast?).map Prod.snd := by
  refine ⟨?_, length_pyDictOfPairs pairs, fun rid => lookup_pyDictOfPairs pairs rid⟩
  have hb : build_workbook_rows tableData cols =
      pyDictOfPairs <$> tableData.mapM (fun r => build_workbook_row_tuple r cols) := rfl
  rw [hb, h]
  rfl

/-- C10 witness: two records with the same `"Id"` value 1 collapse to one row
whose values come from the later record. -/
theorem build_workbook_rows_dedup_witness :
    build_workbook_rows
      [[("Id", JVal.int 1), ("Name", JVal.str "a")],
        [("Id", JVal.int 1), ("Name", JVal.str "b")]]
      [⟨some "Name", none, some "SingleLineText", none, some 1⟩] =
      .ok (pyDictOfPairs [(JVal.int 1, [JVal.str "a"]), (JVal.int 1, [JVal.str "b"])]) ∧
    (pyDictOfPairs [(JVal.int 1, [JVal.str "a"]), (JVal.int 1, [JVal.str "b"])]).length =
      ([(JVal.int 1, [JVal.str "a"]), (JVal.int 1, [JVal.str "b"])].map
        Prod.fst).toFinset.card ∧
    dictLookup (pyDictOfPairs [(JVal.int 1, [JVal.str "a"]), (JVal.int 1, [JVal.str "b"])])
      (JVal.int 1) =
      (([(JVal.int 1, [JVal.str "a"]), (JVal.int 1, [JVal.str "b"])].filter
        fun p => decide (p.1 = JVal.int 1)).getLast?).map Prod.snd := by
  have h := build_workbook_rows_dedup
    [[("Id", JVal.int 1), ("Name", JVal.str "a")],
      [("Id", JVal.int 1), ("Name", JVal.str "b")]]
    [⟨some "Name", none, some "SingleLineText", none, some 1⟩]
    [(JVal.int 1, [JVal.str "a"]), (JVal.int 1, [JVal.str "b"])] rfl
  exact ⟨h.1, h.2.1, h.2.2 (JVal.int 1)⟩

/-! ## Claim C9: export filenames -/

/-- Digit characters compare like the digits (checked on all 100 pairs). -/
theorem digitChar10_lt_fin :
    ∀ a b : Fin 10, a.1 < b.1 → digitChar10 a.1 < digitChar10 b.1 := by decide

/-- Monotonicity of `digitChar10` on decimal digits. -/
theorem digitChar10_lt (a b : Nat) (hab : a < b) (hb : b ≤ 9) :
    digitChar10 a < digitChar10 b :=
  digitChar10_lt_fin ⟨a, by omega⟩ ⟨b, by omega⟩ hab

/-- `padDec w` always renders exactly `w` characters. -/
theorem padDec_length : ∀ (w n : Nat), (padDec w n).length = w
  | 0, _ => rfl
  | w + 1, n => by simp [padDec, padDec_length w]

/-- Zero-padded renderings of equal width compare lexicographically like the
numbers rendered. -/
theorem padDec_lt : ∀ (w a b : Nat), a < b → b < 10 ^ w →
    List.lt (padDec w a) (padDec w b)
  | 0, a, b, hab, hb => by
    exfalso
    simp only [pow_zero] at hb
    omega
  | w + 1, a, b, hab, hb => by
    show List.lt (digitChar10 (a / 10 ^ w) :: padDec w (a % 10 ^ w))
      (digitChar10 (b / 10 ^ w) :: padDec w (b % 10 ^ w))
    have hpow : 0 < 10 ^ w := pow_pos (by norm_num) w
    have hbd : b / 10 ^ w ≤ 9 := by
      have hb' : b < 10 * 10 ^ w := by
        rw [pow_succ] at hb
        omega
      have hq := (Nat.div_lt_iff_lt_mul hpow).mpr hb'
      omega
    have had : a / 10 ^ w ≤ b / 10 ^ w := Nat.div_le_div_right (le_of_lt hab)
    rcases Nat.lt_or_ge (a / 10 ^ w) (b / 10 ^ w) with hlt | hge
    · exact List.lt.head _ _ (digitChar10_lt _ _ hlt hbd)
    · have heq : a / 10 ^ w = b / 10 ^ w := le_antisymm had hge
      have hchar : digitChar10 (a / 10 ^ w) = digitChar10 (b / 10 ^ w) := by rw [heq]
      have h1 := Nat.div_add_mod a (10 ^ w)
      have h2 := Nat.div_add_mod b (10 ^ w)
      have h1' : 10 ^ w * (b / 10 ^ w) + a % 10 ^ w = a := by
        rw [← heq]
        exact h1
      have hsum : 10 ^ w * (b / 10 ^ w) + a % 10 ^ w <
          10 ^ w * (b / 10 ^ w) + b % 10 ^ w := by
        rw [h1', h2]
        exact hab
      have hmod : a % 10 ^ w < b % 10 ^ w := Nat.lt_of_add_lt_add_left hsum
      have hmodb : b % 10 ^ w < 10 ^ w := Nat.mod_lt _ hpow
      refine List.lt.tail ?_ ?_ (padDec_lt w _ _ hmod hmodb)
      · rw [hchar]
        exact lt_irrefl _
      · rw [hchar]
        exact lt_irrefl _

/-- A number below `10 ^ (k + 1)` has at most `k + 1` decimal digits,
whatever the fuel. -/
theorem decLenFuel_le : ∀ (fuel n k : Nat), n < 10 ^ (k + 1) → decLenFuel fuel n ≤ k + 1
  | 0, n, k, _ => by
    show 1 ≤ k + 1
    omega
  | fuel + 1, n, k, h => by
    show (if n < 10 then 1 else decLenFuel fuel (n / 10) + 1) ≤ k + 1
    by_cases h10 : n < 10
    · rw [if_pos h10]
      omega
    · rw [if_neg h10]
      have hk1 : 1 ≤ k := by
        by_contra hk0
        have hk : k = 0 := by omega
        rw [hk] at h
        norm_num at h
        omega
      obtain ⟨k', rfl⟩ : ∃ k', k = k' + 1 := ⟨k - 1, by omega⟩
      have hdiv : n / 10 < 10 ^ (k' + 1) := by
        rw [Nat.div_lt_iff_lt_mul (by norm_num : (0:Nat) < 10)]
        rw [← pow_succ]
        exact h
      have ih := decLenFuel_le fuel (n / 10) k' hdiv
      omega

/-- Up to 9999, at most four digits. -/
theorem decLen_le_four (n : Nat) (h : n ≤ 9999) : decLen n ≤ 4 := by
  have h4 : (10:Nat) ^ (3 + 1) = 10000 := by norm_num
  exact decLenFuel_le n n 3 (by rw [h4]; omega)

/-- A strict lexicographic comparison of equal-length prefixes decides the
comparison of the full lists. -/
theorem list_lt_append {α : Type} [LT α] :
    ∀ {as bs : List α}, List.lt as bs → as.length = bs.length →
      ∀ (cs ds : List α), List.lt (as ++ cs) (bs ++ ds) := by
  intro as bs h
  induction h with
  | nil b bs =>
    intro hlen
    simp at hlen
  | head as bs hab =>
    intro _ cs ds
    exact List.lt.head _ _ hab
  | tail h1 h2 h3 ih =>
    intro hlen cs ds
    exact List.lt.tail h1 h2 (ih (by simpa using hlen) cs ds)

/-- On nonnegative rationals Python's `int()` is the floor. -/
theorem pyIntTrunc_eq_floor (q : ℚ) (h : 0 ≤ q) : pyIntTrunc q = ⌊q⌋ := by
  unfold pyIntTrunc
  rw [if_pos h, Rat.floor_def]
  have hnum : (0:ℤ) ≤ q.num := Rat.num_nonneg.mpr h
  conv_rhs => rw [← Int.toNat_of_nonneg hnum]
  exact (Int.ofNat_tdiv _ _).symm

/-- `int()` of a nonnegative natural fraction is natural-number division. -/
theorem pyIntTrunc_div (n d : ℕ) :
    pyIntTrunc ((n : ℚ) / (d : ℚ)) = ((n / d : ℕ) : ℤ) := by
  have h0 : (0:ℚ) ≤ (n : ℚ) / (d : ℚ) := by positivity
  rw [pyIntTrunc_eq_floor _ h0, Rat.floor_natCast_div_natCast]
  exact (Int.ofNat_tdiv n d).symm

/-- `int()` of a natural number is itself. -/
theorem pyIntTrunc_natCast (m : ℕ) : pyIntTrunc (m : ℚ) = (m : ℤ) := by
  rw [pyIntTrunc_eq_floor _ (by positivity), Int.floor_natCast]

/-- In range `0..9999`, Python's `f"{n:04d}"` is the four-character
zero-padded decimal rendering. -/
theorem pyFormat04d_data (n : Int) (h0 : 0 ≤ n) (h9 : n ≤ 9999) :
    (pyFormat04d n).data = padDec 4 n.toNat := by
  unfold pyFormat04d
  rw [if_neg (by omega : ¬ n < 0)]
  have hmax : max 4 (decLen n.toNat) = 4 := by
    have := decLen_le_four n.toNat (by omega)
    omega
  rw [hmax]

/-- C9 (amended): filename generation is a function of the table's `order` and
remote id with `order=1.5, id="tbl_x"` mapping to `"0015.tbl_x.yaml"`, and the
filenames compare lexicographically in the same order as the order values
whenever the truncated scaled values `int(order * 10)` differ and lie within
four digits (`0..9999`); ties in the truncated value are broken by the remote
id, not by the order value. -/
theorem get_table_filename_amended :
    get_table_filename ⟨"tbl_x", 3 / 2⟩ = "0015.tbl_x.yaml" ∧
    ∀ t1 t2 : TableMeta,
      0 ≤ pyIntTrunc (t1.order * 10) →
      pyIntTrunc (t1.order * 10) < pyIntTrunc (t2.order * 10) →
      pyIntTrunc (t2.order * 10) ≤ 9999 →
      get_table_filename t1 < get_table_filename t2 := by
  constructor
  · have ht : pyIntTrunc (((3:ℚ) / 2) * 10) = 15 := by
      rw [show ((3:ℚ) / 2) * 10 = ((15:ℕ) : ℚ) from by push_cast; norm_num,
        pyIntTrunc_natCast]
      norm_num
    show pyFormat04d (pyIntTrunc (((3:ℚ) / 2) * 10)) ++ "." ++ "tbl_x" ++ ".yaml" =
      "0015.tbl_x.yaml"
    rw [ht]
    rfl
  · intro t1 t2 h0 hlt hb
    have h0n : (0:Int) ≤ pyIntTrunc (t2.order * 10) := le_trans h0 (le_of_lt hlt)
    have e1 : (get_table_filename t1).data =
        padDec 4 (pyIntTrunc (t1.order * 10)).toNat ++
          (".".data ++ (t1.id.data ++ ".yaml".data)) := by
      simp only [get_table_filename, String.data_append, List.append_assoc]
      rw [pyFormat04d_data _ h0 (by omega)]
    have e2 : (get_table_filename t2).data =
        padDec 4 (pyIntTrunc (t2.order * 10)).toNat ++
          (".".data ++ (t2.id.data ++ ".yaml".data)) := by
      simp only [get_table_filename, String.data_append, List.append_assoc]
      rw [pyFormat04d_data _ h0n hb]
    have key : List.lt
        (padDec 4 (pyIntTrunc (t1.order * 10)).toNat ++
          (".".data ++ (t1.id.data ++ ".yaml".data)))
        (padDec 4 (pyIntTrunc (t2.order * 10)).toNat ++
          (".".data ++ (t2.id.data ++ ".yaml".data))) := by
      apply list_lt_append
      · apply padDec_lt
        · omega
        · have h4 : (10:Nat) ^ 4 = 10000 := by norm_num
          rw [h4]
          omega
      · rw [padDec_length, padDec_length]
    rw [String.lt_iff_toList_lt]
    show List.Lex (· < ·) (get_table_filename t1).data (get_table_filename t2).data
    rw [e1, e2]
    exact (List.lt_iff_lex_lt _ _).mp key

/-- C9 witness: orders 1 and 2 give filenames `0010.a.yaml < 0020.b.yaml`. -/
theorem get_table_filename_amended_witness :
    0 ≤ pyIntTrunc ((⟨"a", 1⟩ : TableMeta).order * 10) ∧
    pyIntTrunc ((⟨"a", 1⟩ : TableMeta).order * 10) <
      pyIntTrunc ((⟨"b", 2⟩ : TableMeta).order * 10) ∧
    pyIntTrunc ((⟨"b", 2⟩ : TableMeta).order * 10) ≤ 9999 ∧
    get_table_filename ⟨"a", 1⟩ < get_table_filename ⟨"b", 2⟩ := by
  have h1 : pyIntTrunc ((⟨"a", 1⟩ : TableMeta).order * 10) = 10 := by
    show pyIntTrunc ((1:ℚ) * 10) = 10
    rw [show (1:ℚ) * 10 = ((10:ℕ) : ℚ) from by push_cast; norm_num, pyIntTrunc_natCast]
    norm_num
  have h2 : pyIntTrunc ((⟨"b", 2⟩ : TableMeta).order * 10) = 20 := by
    show pyIntTrunc ((2:ℚ) * 10) = 20
    rw [show (2:ℚ) * 10 = ((20:ℕ) : ℚ) from by push_cast; norm_num, pyIntTrunc_natCast]
    norm_num
  refine ⟨by rw [h1]; norm_num, by rw [h1, h2]; norm_num, by rw [h2]; norm_num, ?_⟩
  exact get_table_filename_amended.2 ⟨"a", 1⟩ ⟨"b", 2⟩ (by rw [h1]; norm_num)
    (by rw [h1, h2]; norm_num) (by rw [h2]; norm_num)

/-- C9, counterexample: orders 1.51 and 1.55 truncate to the same `0015`
prefix, so the remote ids decide the lexicographic order: with ids `b` and `a`
the filenames sort opposite to the order values. -/
theorem get_table_filename_cex :
    (⟨"b", 151 / 100⟩ : TableMeta).order < (⟨"a", 155 / 100⟩ : TableMeta).order ∧
    ¬(get_table_filename ⟨"b", 151 / 100⟩ < get_table_filename ⟨"a", 155 / 100⟩) := by
  have ht1 : pyIntTrunc (((151:ℚ) / 100) * 10) = 15 := by
    rw [show ((151:ℚ) / 100) * 10 = ((151:ℕ) : ℚ) / ((10:ℕ) : ℚ) from by
        push_cast; norm_num,
      pyIntTrunc_div]
    norm_num
  have ht2 : pyIntTrunc (((155:ℚ) / 100) * 10) = 15 := by
    rw [show ((155:ℚ) / 100) * 10 = ((155:ℕ) : ℚ) / ((10:ℕ) : ℚ) from by
        push_cast; norm_num,
      pyIntTrunc_div]
    norm_num
  have hf1 : get_table_filename ⟨"b", 151 / 100⟩ = "0015.b.yaml" := by
    show pyFormat04d (pyIntTrunc (((151:ℚ) / 100) * 10)) ++ "." ++ "b" ++ ".yaml" =
      "0015.b.yaml"
    rw [ht1]
    rfl
  have hf2 : get_table_filename ⟨"a", 155 / 100⟩ = "0015.a.yaml" := by
    show pyFormat04d (pyIntTrunc (((155:ℚ) / 100) * 10)) ++ "." ++ "a" ++ ".yaml" =
      "0015.a.yaml"
    rw [ht2]
    rfl
  constructor
  · show (151:ℚ) / 100 < 155 / 100
    norm_num
  · rw [hf1, hf2]
    intro hlt
    rw [String.lt_iff_toList_lt] at hlt
    have hlex : List.Lex (· < ·) "0015.b.yaml".toList "0015.a.yaml".toList := hlt
    exact absurd hlex (by decide)
